import Mathlib

/-!
Shallow embedding of the event-study pipeline implemented in
"Event study_code/Event study program/Event study program.py".
Dates are modelled as integers (day numbers), returns as exact rationals,
Python integers as Int.  Missing or non-numeric values in a raw column are
modelled as the value none of Option, matching the effect of
pandas.to_numeric with coerce followed by dropna.
-/

namespace EventStudy

/-- Window parameters stored by the EventStudy constructor (source lines 35-49).
All four quantities are Python integers. -/
structure Params where
  event_window_before : Int
  event_window_after : Int
  estimation_window_length : Int
  estimation_window_gap : Int
deriving DecidableEq, Repr

/-- Mirrors EventStudy._validate_parameters (source lines 61-68): raises
ValueError when a window quantity is out of range, modelled as Except.error. -/
def validateParameters (p : Params) : Except String Params :=
  if p.event_window_before < 0 ∨ p.event_window_after < 0 then
    Except.error "event window days must be nonnegative"
  else if p.estimation_window_length ≤ 0 then
    Except.error "estimation window length must be positive"
  else if p.estimation_window_gap < 0 then
    Except.error "estimation gap days must be nonnegative"
  else Except.ok p

/-- Mirrors EventStudy.__init__ (source lines 35-52): the four arguments are
stored unchanged on self and then validated. -/
def mkEventStudy (b a l g : Int) : Except String Params :=
  validateParameters ⟨b, a, l, g⟩

/-- Minimum value of a list, first-to-last fold; mirrors the pandas .min()
reduction used on future_dates at source line 191.  Returns none on the
empty list (pandas would give NaN there, a branch the source guards). -/
def minVal (l : List Int) : Option Int :=
  l.foldl
    (fun best d =>
      match best with
      | none => some d
      | some b => if d < b then some d else some b)
    none

/-- First value attaining the minimal absolute distance to e, in list order;
mirrors Series.idxmin on (dates - event_date).abs() at source lines 195-197
(idxmin returns the first index attaining the minimum). -/
def argminAbsVal (dates : List Int) (e : Int) : Option Int :=
  dates.foldl
    (fun best d =>
      match best with
      | none => some d
      | some b => if (d - e).natAbs < (b - e).natAbs then some d else some b)
    none

/-- Day-zero resolution of EventStudy.get_data, source lines 180-198: if the
requested event date is a member of the trading-date set it is used; otherwise
the minimum trading date strictly after it; otherwise the trading date with
minimal absolute distance. -/
def resolveDayZero (dates : List Int) (e : Int) : Option Int :=
  if e ∈ dates then some e
  else
    match minVal (dates.filter (fun d => e < d)) with
    | some m => some m
    | none => argminAbsVal dates e

theorem minVal_aux : ∀ (l : List Int) (b : Int),
    ∃ m, l.foldl
      (fun best d =>
        match best with
        | none => some d
        | some b => if d < b then some d else some b)
      (some b) = some m ∧ (m = b ∨ m ∈ l) ∧ m ≤ b ∧ ∀ d ∈ l, m ≤ d := by
  intro l
  induction l with
  | nil => intro b; exact ⟨b, rfl, Or.inl rfl, le_refl b, by simp⟩
  | cons x xs ih =>
    intro b
    by_cases hx : x < b
    · obtain ⟨m, hm, hmem, hle, hall⟩ := ih x
      refine ⟨m, ?_, ?_, ?_, ?_⟩
      · simpa [hx] using hm
      · rcases hmem with h | h
        · exact Or.inr (by simp [h])
        · exact Or.inr (by simp [h])
      · exact le_trans hle (le_of_lt hx)
      · intro d hd
        rcases List.mem_cons.mp hd with h | h
        · exact h ▸ hle
        · exact hall d h
    · obtain ⟨m, hm, hmem, hle, hall⟩ := ih b
      refine ⟨m, ?_, ?_, hle, ?_⟩
      · simpa [hx] using hm
      · rcases hmem with h | h
        · exact Or.inl h
        · exact Or.inr (by simp [h])
      · intro d hd
        rcases List.mem_cons.mp hd with h | h
        · exact h ▸ le_trans hle (not_lt.mp hx)
        · exact hall d h

theorem minVal_spec (l : List Int) (hl : l ≠ []) :
    ∃ m, minVal l = some m ∧ m ∈ l ∧ ∀ d ∈ l, m ≤ d := by
  match l, hl with
  | x :: xs, _ =>
    obtain ⟨m, hm, hmem, hle, hall⟩ := minVal_aux xs x
    refine ⟨m, ?_, ?_, ?_⟩
    · simpa [minVal] using hm
    · rcases hmem with h | h
      · simp [h]
      · simp [h]
    · intro d hd
      rcases List.mem_cons.mp hd with h | h
      · exact h ▸ hle
      · exact hall d h

theorem argminAbsVal_aux (e : Int) : ∀ (l : List Int) (b : Int),
    ∃ m, l.foldl
      (fun best d =>
        match best with
        | none => some d
        | some b => if (d - e).natAbs < (b - e).natAbs then some d else some b)
      (some b) = some m ∧ (m = b ∨ m ∈ l) ∧ (m - e).natAbs ≤ (b - e).natAbs ∧
      ∀ d ∈ l, (m - e).natAbs ≤ (d - e).natAbs := by
  intro l
  induction l with
  | nil => intro b; exact ⟨b, rfl, Or.inl rfl, le_refl _, by simp⟩
  | cons x xs ih =>
    intro b
    by_cases hx : (x - e).natAbs < (b - e).natAbs
    · obtain ⟨m, hm, hmem, hle, hall⟩ := ih x
      refine ⟨m, ?_, ?_, ?_, ?_⟩
      · simpa [hx] using hm
      · rcases hmem with h | h
        · exact Or.inr (by simp [h])
        · exact Or.inr (by simp [h])
      · exact le_trans hle (le_of_lt hx)
      · intro d hd
        rcases List.mem_cons.mp hd with h | h
        · exact h ▸ hle
        · exact hall d h
    · obtain ⟨m, hm, hmem, hle, hall⟩ := ih b
      refine ⟨m, ?_, ?_, hle, ?_⟩
      · simpa [hx] using hm
      · rcases hmem with h | h
        · exact Or.inl h
        · exact Or.inr (by simp [h])
      · intro d hd
        rcases List.mem_cons.mp hd with h | h
        · exact h ▸ le_trans hle (not_lt.mp hx)
        · exact hall d h

theorem argminAbsVal_spec (dates : List Int) (e : Int) (hl : dates ≠ []) :
    ∃ m, argminAbsVal dates e = some m ∧ m ∈ dates ∧
      ∀ d ∈ dates, (m - e).natAbs ≤ (d - e).natAbs := by
  match dates, hl with
  | x :: xs, _ =>
    obtain ⟨m, hm, hmem, hle, hall⟩ := argminAbsVal_aux e xs x
    refine ⟨m, ?_, ?_, ?_⟩
    · simpa [argminAbsVal] using hm
    · rcases hmem with h | h
      · simp [h]
      · simp [h]
    · intro d hd
      rcases List.mem_cons.mp hd with h | h
      · exact h ▸ hle
      · exact hall d h

/-- C2.  Day-zero resolution of the pipeline (source lines 180-198): an event
date that is a trading day is used directly; otherwise the minimum strictly
later trading day; otherwise (no later trading day) the trading day with
minimal absolute distance in either direction.  In particular a weekend event
date with a later trading day resolves to that trading day, which is a member
of the series and strictly after the event date. -/
theorem resolveDayZero_spec (dates : List Int) (e : Int) (hne : dates ≠ []) :
    (e ∈ dates → resolveDayZero dates e = some e) ∧
    (e ∉ dates → (∃ d ∈ dates, e < d) →
      ∃ m, resolveDayZero dates e = some m ∧ m ∈ dates ∧ e < m ∧
        ∀ d ∈ dates, e < d → m ≤ d) ∧
    (e ∉ dates → (∀ d ∈ dates, d ≤ e) →
      ∃ m, resolveDayZero dates e = some m ∧ m ∈ dates ∧
        ∀ d ∈ dates, (m - e).natAbs ≤ (d - e).natAbs) := by
  refine ⟨fun hmem => by simp [resolveDayZero, hmem], ?_, ?_⟩
  · intro hmem ⟨d, hd, hed⟩
    have hfne : dates.filter (fun d => decide (e < d)) ≠ [] := by
      intro hnil
      have : d ∈ dates.filter (fun d => decide (e < d)) := by
        simp [List.mem_filter, hd, hed]
      simp [hnil] at this
    obtain ⟨m, hm, hmmem, hall⟩ := minVal_spec _ hfne
    have hmem2 := List.mem_filter.mp hmmem
    refine ⟨m, ?_, hmem2.1, by simpa using hmem2.2, ?_⟩
    · simp [resolveDayZero, hmem, hm]
    · intro d hd hed
      exact hall d (by simp [List.mem_filter, hd, hed])
  · intro hmem hall
    have hfe : dates.filter (fun d => decide (e < d)) = [] := by
      rw [List.filter_eq_nil_iff]
      intro d hd
      simpa using not_lt.mpr (hall d hd)
    obtain ⟨m, hm, hmmem, hmin⟩ := argminAbsVal_spec dates e hne
    exact ⟨m, by simp [resolveDayZero, hmem, hfe, hm, minVal], hmmem, hmin⟩

/-- Witness for resolveDayZero_spec: event date 1 is not a trading day of the
series 0, 2, 3, so day-zero resolves to a strictly later trading day that is
minimal among later days. -/
theorem resolveDayZero_spec_witness :
    ∃ m, resolveDayZero [0, 2, 3] 1 = some m ∧ m ∈ [(0 : Int), 2, 3] ∧ 1 < m ∧
      ∀ d ∈ [(0 : Int), 2, 3], 1 < d → m ≤ d :=
  (resolveDayZero_spec [0, 2, 3] 1 (by decide)).2.1 (by decide)
    ⟨2, by decide, by decide⟩

/-- One row of the frame obtained by merging stock and index data on date
(source line 242), before numeric coercion and NaN removal.  A missing or
non-numeric return is none: pandas.to_numeric with errors coerce maps both to
NaN and the subsequent dropna removes the row. -/
structure RawRow where
  date : Int
  stock_return : Option ℚ
  index_return : Option ℚ
deriving DecidableEq, Repr

/-- One fully numeric merged row, as returned by get_data after cleaning
(source lines 247-260). -/
structure Row where
  date : Int
  stock_return : ℚ
  index_return : ℚ
deriving DecidableEq, Repr

/-- Mirrors the data-cleaning step of get_data (source lines 247-250):
to_numeric coercion of both return columns followed by dropna on them. -/
def cleanMerged (rows : List RawRow) : List Row :=
  rows.filterMap fun r =>
    match r.stock_return, r.index_return with
    | some s, some i => some ⟨r.date, s, i⟩
    | _, _ => none

/-- One row of the benchmark index file, restricted to the columns the
program uses (trading date and index daily return). -/
structure IndexRow where
  date : Int
  index_return : Option ℚ
deriving DecidableEq, Repr

/-- One row of the stock daily-return query result (columns Trddt, Dretnd). -/
structure StockRow where
  date : Int
  stock_return : Option ℚ
deriving DecidableEq, Repr

/-- Index bounds computed by extract_event_data, source lines 313-358.
All arithmetic is Python int arithmetic, modelled on Int; the clipping
max and min calls are reproduced verbatim.  estStart and estEnd bound the
estimation window slice, evStart and evEnd the event window slice, and
zInWindow is event_idx_in_window, the day-zero position inside the event
window slice (source line 328). -/
structure Bounds where
  estStart : Int
  estEnd : Int
  evStart : Int
  evEnd : Int
  zInWindow : Int
deriving DecidableEq, Repr

/-- Mirrors the index computations of extract_event_data (source lines
313-358) on a frame of length n with resolved day-zero index eventIdx:
event window bounds clipped to the frame, estimation window ending
estimation_window_gap rows before the event window start and extending
estimation_window_length rows back, clipped at 0, and, when the left clip
hits 0 and shortens the window, the right edge is pushed out by the number
of lost rows, capped only at n (source line 352). -/
def windowBounds (n : Int) (eventIdx : Int) (p : Params) : Bounds :=
  let start_idx := eventIdx - p.event_window_before
  let end_idx := eventIdx + p.event_window_after
  let event_start_idx := max 0 start_idx
  let event_end_idx := min n (end_idx + 1)
  let estimation_end_idx := event_start_idx - p.estimation_window_gap
  let estimation_start_idx := estimation_end_idx - p.estimation_window_length
  let estimation_start_idx2 := max 0 estimation_start_idx
  let estimation_end_idx2 := min n estimation_end_idx
  let actual := estimation_end_idx2 - estimation_start_idx2
  let estimation_end_idx3 :=
    if actual < p.estimation_window_length ∧ estimation_start_idx2 = 0 then
      min (estimation_end_idx2 + (p.estimation_window_length - actual)) n
    else estimation_end_idx2
  ⟨estimation_start_idx2, estimation_end_idx3, event_start_idx, event_end_idx,
    eventIdx - event_start_idx⟩

theorem windowBounds_evStart (n ei : Int) (p : Params) :
    (windowBounds n ei p).evStart = max 0 (ei - p.event_window_before) := rfl

theorem windowBounds_evEnd (n ei : Int) (p : Params) :
    (windowBounds n ei p).evEnd = min n (ei + p.event_window_after + 1) := rfl

theorem windowBounds_z (n ei : Int) (p : Params) :
    (windowBounds n ei p).zInWindow = ei - max 0 (ei - p.event_window_before) := rfl

/-- Python slice df.iloc a:b for the nonnegative bounds produced by
windowBounds on pipeline-reachable inputs. -/
def slice (df : List Row) (a b : Int) : List Row :=
  (df.drop a.toNat).take (b - a).toNat

/-- First position whose date attains the minimal absolute distance to e;
mirrors Series.idxmin on the date differences at source lines 287-288
(after reset_index the frame index is the row position). -/
def argminAbsPos (ds : List Int) (e : Int) : Option ℕ :=
  (ds.enum.foldl
    (fun best q =>
      match best with
      | none => some q
      | some b => if (q.2 - e).natAbs < (b.2 - e).natAbs then some q else some b)
    none).map Prod.fst

/-- Day-zero position resolution inside extract_event_data, source lines
281-305: position of the date closest in absolute distance to the event
date; if that date is not exactly the event date, the first position with a
strictly later date is used when one exists. -/
def resolveEventIdxInFrame (df : List Row) (e : Int) : Option ℕ :=
  match argminAbsPos (df.map fun r => r.date) e with
  | none => none
  | some k =>
    if (df.map fun r => r.date).getD k 0 = e then some k
    else
      match (df.map fun r => r.date).findIdx? (fun d => decide (e < d)) with
      | some j => some j
      | none => some k

/-- Mirrors extract_event_data (source lines 266-360) after day-zero
resolution: returns the estimation window slice, the event window slice and
the day-zero position within the event window. -/
def extractEventData (df : List Row) (eventIdx : ℕ) (p : Params) :
    List Row × List Row × Int :=
  let b := windowBounds df.length eventIdx p
  (slice df b.estStart b.estEnd, slice df b.evStart b.evEnd, b.zInWindow)

/-- C3.  Failing evaluation: with the production parameters (before 3,
after 5, length 120, gap 5) and a merged frame of 16 rows whose day-zero
is at position 10 (a stock with only ten trading days of history before the
event), the left-clipped estimation window is extended on the right to rows
0 to 16, which contains the whole event window, rows 7 to 16: the extension
at source line 352 caps the new right edge only at the frame length, not at
the event window start minus the gap, so the estimation window is neither
disjoint from the event window nor ends estimation_window_gap days before
its start. -/
theorem estimation_window_overlaps_event_window :
    (windowBounds 16 10 ⟨3, 5, 120, 5⟩).estStart = 0 ∧
    (windowBounds 16 10 ⟨3, 5, 120, 5⟩).estEnd = 16 ∧
    (windowBounds 16 10 ⟨3, 5, 120, 5⟩).evStart = 7 ∧
    (windowBounds 16 10 ⟨3, 5, 120, 5⟩).evEnd = 16 ∧
    ¬ ((windowBounds 16 10 ⟨3, 5, 120, 5⟩).estEnd ≤
         (windowBounds 16 10 ⟨3, 5, 120, 5⟩).evStart ∨
       (windowBounds 16 10 ⟨3, 5, 120, 5⟩).evEnd ≤
         (windowBounds 16 10 ⟨3, 5, 120, 5⟩).estStart) ∧
    ¬ ((windowBounds 16 10 ⟨3, 5, 120, 5⟩).estEnd ≤
         (windowBounds 16 10 ⟨3, 5, 120, 5⟩).evStart -
           (5 : Int)) := by
  decide

/-- Relative-day label of row i of the event window when day-zero sits at
position z; mirrors the three-branch loop of calculate_CAR, source lines
422-428. -/
def relDayAt (z : Int) (i : ℕ) : Int :=
  if (i : Int) < z then -(z - (i : Int))
  else if (i : Int) = z then 0
  else (i : Int) - z

/-- One output row of calculate_CAR (source lines 406-436), restricted to
the columns the claims are about. -/
structure CarRow where
  date : Int
  stock_return : ℚ
  index_return : ℚ
  predicted_return : ℚ
  abnormal_return : ℚ
  cumulative_abnormal_return : ℚ
  event_date : Int
  relative_day : Int
deriving DecidableEq, Repr

/-- Abnormal return of one merged row under fitted coefficients, source
line 409 with the predicted return of line 408 substituted. -/
def abnormalOf (al be : ℚ) (r : Row) : ℚ :=
  r.stock_return - (r.index_return * be + al)

/-- Row-by-row construction of the calculate_CAR output: acc is the running
cumulative sum maintained by Series.cumsum (source line 410) and i the row
position used for the relative-day label.  The columnwise pandas operations
of source lines 406-434 are expressed rowwise. -/
def carRowsAux (al be : ℚ) (e : Int) (z : Int) : List Row → ℚ → ℕ → List CarRow
  | [], _, _ => []
  | r :: rs, acc, i =>
    ⟨r.date, r.stock_return, r.index_return, r.index_return * be + al,
      abnormalOf al be r, acc + abnormalOf al be r, e, relDayAt z i⟩ ::
      carRowsAux al be e z rs (acc + abnormalOf al be r) (i + 1)

/-- Mirrors calculate_CAR (source lines 392-436): predicted, abnormal and
cumulative abnormal returns over the whole event window plus event date and
relative-day labels. -/
def calculateCAR (ev : List Row) (al be : ℚ) (e : Int) (z : Int) : List CarRow :=
  carRowsAux al be e z ev 0 0

theorem carRowsAux_length (al be : ℚ) (e z : Int) :
    ∀ (l : List Row) (acc : ℚ) (i : ℕ),
      (carRowsAux al be e z l acc i).length = l.length := by
  intro l
  induction l with
  | nil => intro acc i; rfl
  | cons r rs ih => intro acc i; simp [carRowsAux, ih]

theorem calculateCAR_length (ev : List Row) (al be : ℚ) (e z : Int) :
    (calculateCAR ev al be e z).length = ev.length :=
  carRowsAux_length al be e z ev 0 0

theorem carRowsAux_get (al be : ℚ) (e z : Int) :
    ∀ (l : List Row) (acc : ℚ) (i0 i : ℕ)
      (h : i < (carRowsAux al be e z l acc i0).length) (h2 : i < l.length),
      (carRowsAux al be e z l acc i0).get ⟨i, h⟩ =
        ⟨(l.get ⟨i, h2⟩).date, (l.get ⟨i, h2⟩).stock_return,
          (l.get ⟨i, h2⟩).index_return,
          (l.get ⟨i, h2⟩).index_return * be + al,
          abnormalOf al be (l.get ⟨i, h2⟩),
          acc + ((l.take (i + 1)).map (abnormalOf al be)).sum, e,
          relDayAt z (i0 + i)⟩ := by
  intro l
  induction l with
  | nil => intro acc i0 i h h2; exact absurd h2 (by simp)
  | cons r rs ih =>
    intro acc i0 i h h2
    cases i with
    | zero => simp [carRowsAux]
    | succ j =>
      have hj : j < (carRowsAux al be e z rs (acc + abnormalOf al be r) (i0 + 1)).length := by
        have := h
        simpa [carRowsAux, carRowsAux_length] using this
      have hj2 : j < rs.length := by simpa using h2
      have hih := ih (acc + abnormalOf al be r) (i0 + 1) j hj hj2
      simp only [carRowsAux, List.get_cons_succ, List.take_succ_cons, List.map_cons,
        List.sum_cons] at *
      rw [hih]
      have harg : i0 + 1 + j = i0 + (j + 1) := by omega
      rw [harg]
      have hsum : acc + abnormalOf al be r + ((rs.take (j + 1)).map (abnormalOf al be)).sum =
          acc + (abnormalOf al be r + ((rs.take (j + 1)).map (abnormalOf al be)).sum) := by
        ring
      rw [hsum]

theorem carRowsAux_map_abnormal (al be : ℚ) (e z : Int) :
    ∀ (l : List Row) (acc : ℚ) (i : ℕ),
      (carRowsAux al be e z l acc i).map (fun c => c.abnormal_return) =
        l.map (abnormalOf al be) := by
  intro l
  induction l with
  | nil => intro acc i; rfl
  | cons r rs ih => intro acc i; simp [carRowsAux, ih]

theorem carRowsAux_take (al be : ℚ) (e z : Int) :
    ∀ (l : List Row) (acc : ℚ) (i : ℕ) (k : ℕ),
      (carRowsAux al be e z l acc i).take k =
        carRowsAux al be e z (l.take k) acc i := by
  intro l
  induction l with
  | nil => intro acc i k; simp [carRowsAux]
  | cons r rs ih =>
    intro acc i k
    cases k with
    | zero => simp [carRowsAux]
    | succ m => simp [carRowsAux, ih]

theorem calculateCAR_get (ev : List Row) (al be : ℚ) (e z : Int) (i : ℕ)
    (h : i < (calculateCAR ev al be e z).length) (h2 : i < ev.length) :
    (calculateCAR ev al be e z).get ⟨i, h⟩ =
      ⟨(ev.get ⟨i, h2⟩).date, (ev.get ⟨i, h2⟩).stock_return,
        (ev.get ⟨i, h2⟩).index_return,
        (ev.get ⟨i, h2⟩).index_return * be + al,
        abnormalOf al be (ev.get ⟨i, h2⟩),
        0 + ((ev.take (i + 1)).map (abnormalOf al be)).sum, e,
        relDayAt z (0 + i)⟩ :=
  carRowsAux_get al be e z ev 0 0 i h h2

/-- C1.  Every row of the calculate_CAR output satisfies predicted equals
alpha plus beta times benchmark and abnormal equals stock minus predicted,
and its cumulative abnormal return is the sum of the abnormal returns of all
window rows up to and including it; at the last row this is the sum over the
whole window, with no reset at day-zero. -/
theorem abnormal_return_rows_correct (ev : List Row) (al be : ℚ) (e z : Int)
    (i : ℕ) (h : i < (calculateCAR ev al be e z).length) :
    ((calculateCAR ev al be e z).get ⟨i, h⟩).predicted_return =
        al + be * ((calculateCAR ev al be e z).get ⟨i, h⟩).index_return ∧
    ((calculateCAR ev al be e z).get ⟨i, h⟩).abnormal_return =
        ((calculateCAR ev al be e z).get ⟨i, h⟩).stock_return -
          ((calculateCAR ev al be e z).get ⟨i, h⟩).predicted_return ∧
    ((calculateCAR ev al be e z).get ⟨i, h⟩).cumulative_abnormal_return =
        (((calculateCAR ev al be e z).take (i + 1)).map
          (fun c => c.abnormal_return)).sum ∧
    (i + 1 = (calculateCAR ev al be e z).length →
      ((calculateCAR ev al be e z).get ⟨i, h⟩).cumulative_abnormal_return =
        ((calculateCAR ev al be e z).map (fun c => c.abnormal_return)).sum) := by
  have h2 : i < ev.length := by
    have hh := h
    rwa [calculateCAR_length] at hh
  rw [calculateCAR_get ev al be e z i h h2]
  refine ⟨?_, ?_, ?_, ?_⟩
  · show (ev.get ⟨i, h2⟩).index_return * be + al =
      al + be * (ev.get ⟨i, h2⟩).index_return
    ring
  · rfl
  · show 0 + ((ev.take (i + 1)).map (abnormalOf al be)).sum =
      (((carRowsAux al be e z ev 0 0).take (i + 1)).map
        (fun c => c.abnormal_return)).sum
    rw [carRowsAux_take, carRowsAux_map_abnormal, zero_add]
  · intro hlast
    show 0 + ((ev.take (i + 1)).map (abnormalOf al be)).sum =
      ((carRowsAux al be e z ev 0 0).map (fun c => c.abnormal_return)).sum
    rw [carRowsAux_map_abnormal, zero_add]
    have hevtake : ev.take (i + 1) = ev := by
      apply List.take_of_length_le
      rw [calculateCAR_length] at hlast
      omega
    rw [hevtake]

/-- Witness for abnormal_return_rows_correct at a concrete two-row window. -/
theorem abnormal_return_rows_correct_witness :
    ((calculateCAR [⟨0, 1/2, 1/4⟩, ⟨1, 1/3, 1/5⟩] 1 2 0 0).get ⟨1, by decide⟩).predicted_return =
        1 + 2 * ((calculateCAR [⟨0, 1/2, 1/4⟩, ⟨1, 1/3, 1/5⟩] 1 2 0 0).get ⟨1, by decide⟩).index_return ∧
    ((calculateCAR [⟨0, 1/2, 1/4⟩, ⟨1, 1/3, 1/5⟩] 1 2 0 0).get ⟨1, by decide⟩).abnormal_return =
        ((calculateCAR [⟨0, 1/2, 1/4⟩, ⟨1, 1/3, 1/5⟩] 1 2 0 0).get ⟨1, by decide⟩).stock_return -
          ((calculateCAR [⟨0, 1/2, 1/4⟩, ⟨1, 1/3, 1/5⟩] 1 2 0 0).get ⟨1, by decide⟩).predicted_return ∧
    ((calculateCAR [⟨0, 1/2, 1/4⟩, ⟨1, 1/3, 1/5⟩] 1 2 0 0).get ⟨1, by decide⟩).cumulative_abnormal_return =
        (((calculateCAR [⟨0, 1/2, 1/4⟩, ⟨1, 1/3, 1/5⟩] 1 2 0 0).take 2).map
          (fun c => c.abnormal_return)).sum ∧
    (1 + 1 = (calculateCAR [⟨0, 1/2, 1/4⟩, ⟨1, 1/3, 1/5⟩] 1 2 0 0).length →
      ((calculateCAR [⟨0, 1/2, 1/4⟩, ⟨1, 1/3, 1/5⟩] 1 2 0 0).get ⟨1, by decide⟩).cumulative_abnormal_return =
        ((calculateCAR [⟨0, 1/2, 1/4⟩, ⟨1, 1/3, 1/5⟩] 1 2 0 0).map
          (fun c => c.abnormal_return)).sum) :=
  abnormal_return_rows_correct [⟨0, 1/2, 1/4⟩, ⟨1, 1/3, 1/5⟩] 1 2 0 0 1 (by decide)

theorem argminAbsPos_aux (e : Int) : ∀ (l : List (ℕ × Int)) (b : ℕ × Int),
    ∃ m, l.foldl
      (fun best q =>
        match best with
        | none => some q
        | some b => if (q.2 - e).natAbs < (b.2 - e).natAbs then some q else some b)
      (some b) = some m ∧ (m = b ∨ m ∈ l) := by
  intro l
  induction l with
  | nil => intro b; exact ⟨b, rfl, Or.inl rfl⟩
  | cons x xs ih =>
    intro b
    by_cases hx : (x.2 - e).natAbs < (b.2 - e).natAbs
    · obtain ⟨m, hm, hmem⟩ := ih x
      refine ⟨m, by simpa [hx] using hm, ?_⟩
      rcases hmem with h | h
      · exact Or.inr (by simp [h])
      · exact Or.inr (by simp [h])
    · obtain ⟨m, hm, hmem⟩ := ih b
      refine ⟨m, by simpa [hx] using hm, ?_⟩
      rcases hmem with h | h
      · exact Or.inl h
      · exact Or.inr (by simp [h])

theorem argminAbsPos_lt (ds : List Int) (e : Int) (k : ℕ)
    (h : argminAbsPos ds e = some k) : k < ds.length := by
  match ds with
  | [] => simp [argminAbsPos] at h
  | x :: xs =>
    unfold argminAbsPos at h
    obtain ⟨m, hm, hmem⟩ := argminAbsPos_aux e (xs.enumFrom 1) (0, x)
    rw [show (x :: xs).enum = (0, x) :: xs.enumFrom 1 from rfl] at h
    simp only [List.foldl_cons] at h
    rw [hm] at h
    have hk : m.1 = k := by simpa using h
    rcases hmem with hb | hb
    · rw [hb] at hk
      simp only [List.length_cons]
      omega
    · obtain ⟨i, v⟩ := m
      have := List.mk_mem_enumFrom_iff_le_and_getElem?_sub.mp hb
      have hlt : i - 1 < xs.length := by
        have h2 := this.2
        exact (List.getElem?_eq_some.mp h2).1
      simp only at hk
      simp only [List.length_cons]
      omega

theorem resolveEventIdxInFrame_lt (df : List Row) (e : Int) (k : ℕ)
    (h : resolveEventIdxInFrame df e = some k) : k < df.length := by
  unfold resolveEventIdxInFrame at h
  split at h
  next => exact absurd h (by simp)
  next k0 hmin =>
    have hk0 : k0 < df.length := by
      have := argminAbsPos_lt _ e k0 hmin
      simpa using this
    split at h
    next hc =>
      have : k0 = k := by simpa using h
      omega
    next hc =>
      split at h
      next j hf =>
        have hj : j = k := by simpa using h
        have := (List.findIdx?_eq_some_iff_findIdx_eq.mp hf).1
        simp only [List.length_map] at this
        omega
      next hf =>
        have : k0 = k := by simpa using h
        omega

/-- The three branches of the relative-day loop (source lines 422-428) all
compute position minus day-zero position. -/
theorem relDayAt_eq (z : Int) (i : ℕ) : relDayAt z i = (i : Int) - z := by
  unfold relDayAt
  split_ifs <;> omega

theorem slice_length (df : List Row) (a b : Int) (h0 : 0 ≤ a) (_hab : a ≤ b)
    (hb : b ≤ df.length) : (slice df a b).length = (b - a).toNat := by
  simp only [slice, List.length_take, List.length_drop]
  omega

theorem carRowsAux_count_rel (al be : ℚ) (e : Int) :
    ∀ (l : List Row) (acc : ℚ) (i0 : ℕ) (z : Int),
      ((carRowsAux al be e z l acc i0).map (fun c => c.relative_day)).count 0 =
        if (i0 : Int) ≤ z ∧ z < (i0 : Int) + l.length then 1 else 0 := by
  intro l
  induction l with
  | nil =>
    intro acc i0 z
    simp only [carRowsAux, List.map_nil, List.count_nil, List.length_nil]
    split_ifs with hcond
    · omega
    · rfl
  | cons r rs ih =>
    intro acc i0 z
    simp only [carRowsAux, List.map_cons, List.count_cons, ih, relDayAt_eq,
      List.length_cons, beq_iff_eq]
    push_cast
    split_ifs <;> omega

/-- C5.  For the event window and day-zero position produced by
extract_event_data on a frame with a resolvable day-zero, the relative-day
column of the calculate_CAR output equals row position minus day-zero
position, increases by exactly one from each row to the next, and contains
exactly one zero. -/
theorem relative_days_contiguous (df : List Row) (e : Int) (p : Params)
    (k : ℕ) (al be : ℚ)
    (hp : validateParameters p = Except.ok p)
    (hk : resolveEventIdxInFrame df e = some k) :
    (∀ (i : ℕ) (h : i < (calculateCAR (extractEventData df k p).2.1 al be e
        (extractEventData df k p).2.2).length),
      ((calculateCAR (extractEventData df k p).2.1 al be e
        (extractEventData df k p).2.2).get ⟨i, h⟩).relative_day =
        (i : Int) - (extractEventData df k p).2.2) ∧
    (∀ (i : ℕ) (h : i + 1 < (calculateCAR (extractEventData df k p).2.1 al be e
        (extractEventData df k p).2.2).length)
      (h2 : i < (calculateCAR (extractEventData df k p).2.1 al be e
        (extractEventData df k p).2.2).length),
      ((calculateCAR (extractEventData df k p).2.1 al be e
        (extractEventData df k p).2.2).get ⟨i + 1, h⟩).relative_day =
        ((calculateCAR (extractEventData df k p).2.1 al be e
          (extractEventData df k p).2.2).get ⟨i, h2⟩).relative_day + 1) ∧
    ((calculateCAR (extractEventData df k p).2.1 al be e
        (extractEventData df k p).2.2).map (fun c => c.relative_day)).count 0 = 1 := by
  have hkn : k < df.length := resolveEventIdxInFrame_lt df e k hk
  have hparams : 0 ≤ p.event_window_before ∧ 0 ≤ p.event_window_after ∧
      0 < p.estimation_window_length ∧ 0 ≤ p.estimation_window_gap := by
    unfold validateParameters at hp
    split_ifs at hp with h1 h2 h3
    push_neg at h1
    omega
  have hrel : ∀ (i : ℕ) (h : i < (calculateCAR (extractEventData df k p).2.1 al be e
      (extractEventData df k p).2.2).length),
      ((calculateCAR (extractEventData df k p).2.1 al be e
        (extractEventData df k p).2.2).get ⟨i, h⟩).relative_day =
        (i : Int) - (extractEventData df k p).2.2 := by
    intro i h
    have h2 : i < ((extractEventData df k p).2.1).length := by
      have hh := h
      rwa [calculateCAR_length] at hh
    rw [calculateCAR_get _ al be e _ i h h2]
    show relDayAt ((extractEventData df k p).2.2) (0 + i) = _
    rw [relDayAt_eq]
    simp
  refine ⟨hrel, ?_, ?_⟩
  · intro i h h2
    rw [hrel (i + 1) h, hrel i h2]
    push_cast
    ring
  · show ((carRowsAux al be e ((extractEventData df k p).2.2)
      ((extractEventData df k p).2.1) 0 0).map (fun c => c.relative_day)).count 0 = 1
    rw [carRowsAux_count_rel]
    have hz : (extractEventData df k p).2.2 =
        (k : Int) - max 0 ((k : Int) - p.event_window_before) := by
      show (windowBounds (df.length : Int) (k : Int) p).zInWindow = _
      rw [windowBounds_z]
    have hlen : ((extractEventData df k p).2.1).length =
        (min (df.length : Int) ((k : Int) + p.event_window_after + 1) -
          max 0 ((k : Int) - p.event_window_before)).toNat := by
      show (slice df ((windowBounds (df.length : Int) (k : Int) p).evStart)
          ((windowBounds (df.length : Int) (k : Int) p).evEnd)).length = _
      rw [windowBounds_evStart, windowBounds_evEnd]
      apply slice_length
      · exact le_max_left 0 _
      · have hb := hparams.1
        have ha := hparams.2.1
        omega
      · exact min_le_left _ _
    rw [hz, hlen]
    have hb := hparams.1
    have ha := hparams.2.1
    split_ifs with hcond
    · rfl
    · exfalso
      apply hcond
      push_cast
      constructor
      · omega
      · omega

/-- Witness for relative_days_contiguous at a one-row frame whose single
date is the event date. -/
theorem relative_days_contiguous_witness :
    ((calculateCAR (extractEventData [⟨0, 1/2, 1/100⟩] 0 ⟨3, 5, 120, 5⟩).2.1 1 2 0
        (extractEventData [⟨0, 1/2, 1/100⟩] 0 ⟨3, 5, 120, 5⟩).2.2).map
      (fun c => c.relative_day)).count 0 = 1 :=
  (relative_days_contiguous [⟨0, 1/2, 1/100⟩] 0 ⟨3, 5, 120, 5⟩ 0 1 2 (by rfl)
    (by rfl)).2.2

/-- All elements of a column are equal (vacuously true when empty): numpy
ptp along axis 0 equal to zero, the constancy half of the constant-column
test performed by statsmodels add_constant. -/
def ptpZero (xs : List ℚ) : Bool :=
  match xs with
  | [] => true
  | x :: rest => rest.all fun y => y == x

/-- All elements nonzero: the second half of the nonzero-constant-column
test performed by statsmodels add_constant. -/
def allNonzero (xs : List ℚ) : Bool :=
  xs.all fun y => !(y == 0)

/-- Arithmetic mean; division by zero on the empty list yields the rational
zero, a case every caller below guards explicitly. -/
def mean (xs : List ℚ) : ℚ :=
  xs.sum / (xs.length : ℚ)

/-- Mirrors calculate_regression_coefficients, source lines 366-390, which
runs sm.add_constant on the benchmark column, fits sm.OLS and returns
params zero and params one.  The library behavior embedded here: statsmodels
add_constant with its default has_constant equal to skip does not prepend an
intercept when the lone data column is a nonzero constant (its test is ptp
along axis 0 equal to 0 and all entries nonzero), so in that case the fit
has a single parameter and reading params at index one raises IndexError,
re-raised at source line 390; a zero-size column makes numpy raise inside
add_constant; with the intercept present, OLS fits by pseudo-inverse and
never raises, giving the unique least-squares pair for a non-constant
benchmark and, for an all-zero benchmark column (the rank-deficient design
with an intercept), the minimum-norm solution: intercept equal to the mean
stock return and slope zero. -/
def calculateRegressionCoefficients (est : List Row) : Except String (ℚ × ℚ) :=
  let xs := est.map fun r => r.index_return
  let ys := est.map fun r => r.stock_return
  if xs.length = 0 then
    Except.error "zero size array to reduction operation"
  else if ptpZero xs && allNonzero xs then
    Except.error "index one is out of bounds for params of size one"
  else if ptpZero xs then
    Except.ok (mean ys, 0)
  else
    let xbar := mean xs
    let ybar := mean ys
    let sxx := (xs.map fun x => (x - xbar) ^ 2).sum
    let sxy := ((xs.zip ys).map fun q => (q.1 - xbar) * (q.2 - ybar)).sum
    Except.ok (ybar - sxy / sxx * xbar, sxy / sxx)

/-- Value of the scipy t statistic as computed in floating point: NaN,
positive or negative infinity, or a finite value.  A finite t is encoded
exactly by its signed square sign(t) times t squared, a rational number,
since t itself involves a square root. -/
inductive RVal where
  | nan : RVal
  | posinf : RVal
  | neginf : RVal
  | fin : ℚ → RVal
deriving DecidableEq, Repr

/-- Value of the scipy two-sided p-value: NaN, exactly zero (survival
function at infinity), or a strictly positive finite value, encoded by the
signed square of the corresponding t statistic; its numeric value, twice
the Student survival function at the absolute t, is transcendental and
never needed below, only its being neither NaN nor produced from a
degenerate sample. -/
inductive PVal where
  | nan : PVal
  | zero : PVal
  | posFin : ℚ → PVal
deriving DecidableEq, Repr

/-- Sample variance with one delta degree of freedom, as numpy var with
ddof 1 inside scipy ttest_1samp: NaN (none) when fewer than two
observations. -/
def sampleVar (xs : List ℚ) : Option ℚ :=
  if xs.length < 2 then none
  else some ((xs.map fun x => (x - mean xs) ^ 2).sum / ((xs.length : ℚ) - 1))

/-- Mirrors scipy.stats.ttest_1samp against population mean zero as invoked
at source line 454: the statistic is the sample mean divided by the standard
error; an empty sample gives NaN mean hence NaN results, a single
observation gives NaN variance hence NaN results, zero variance gives a
division of the mean by zero, which in IEEE arithmetic is positive or
negative infinity for a nonzero mean (with p-value zero) and NaN for a zero
mean; otherwise both values are finite, the statistic encoded by its signed
square d * abs d * n / v. -/
def ttest1samp (xs : List ℚ) : RVal × PVal :=
  if xs.length = 0 then (RVal.nan, PVal.nan)
  else
    match sampleVar xs with
    | none => (RVal.nan, PVal.nan)
    | some v =>
      if v = 0 then
        if mean xs > 0 then (RVal.posinf, PVal.zero)
        else if mean xs < 0 then (RVal.neginf, PVal.zero)
        else (RVal.nan, PVal.nan)
      else
        (RVal.fin (mean xs * |mean xs| * (xs.length : ℚ) / v),
          PVal.posFin (mean xs * |mean xs| * (xs.length : ℚ) / v))

/-- One row of the significance output of single_sample_test, source lines
456-462; the rounding to four decimals of the source is omitted as it never
turns a NaN into a number or back.  The significant flag is p less than
five percent: decided for NaN (False in Python) and for zero (True) and
left undetermined for a finite positive p, whose numeric value the
embedding does not carry. -/
structure SigRow where
  event_date : Int
  mean_CAR : RVal
  t_stat : RVal
  p_value : PVal
  significant : Option Bool
deriving DecidableEq, Repr

/-- Mirrors single_sample_test (source lines 441-467): selects the
cumulative abnormal returns of the rows carrying this event date and runs
the one-sample t-test on them. -/
def singleSampleTest (carRows : List CarRow) (e : Int) : SigRow :=
  let cars := (carRows.filter fun r => r.event_date == e).map
    fun r => r.cumulative_abnormal_return
  let tp := ttest1samp cars
  ⟨e, if cars.length = 0 then RVal.nan else RVal.fin (mean cars), tp.1, tp.2,
    match tp.2 with
    | PVal.nan => some false
    | PVal.zero => some true
    | PVal.posFin _ => none⟩

/-- Mirrors the dropna call on the significance frame at source line 549: a
row survives when none of its numeric fields is NaN. -/
def sigRowKept (s : SigRow) : Bool :=
  !(s.mean_CAR == RVal.nan) && !(s.t_stat == RVal.nan) && !(s.p_value == PVal.nan)

/-- Python str.zfill to width six as used at source line 83; company codes
carry no sign character. -/
def zfill6 (s : String) : String :=
  if s.length ≥ 6 then s
  else String.mk (List.replicate (6 - s.length) '0') ++ s

/-- Python str.startswith: the argument is a character-sequence prefix of
the receiver.  Expressed on the character lists, which agrees with the
byte-based String.startsWith of the standard library on all strings. -/
def strStartsWith (s q : String) : Bool :=
  decide (s.data.take q.data.length = q.data)

/-- Keys of the index mapping of source lines 55-59. -/
def indexMapping : List String := ["000300", "000001", "399106"]

/-- Mirrors _get_company_market (source lines 70-98): codes starting with 8
or 9 after padding are skipped; Shanghai and Shenzhen main-board prefixes
are mapped to their markets and everything else defaults to the broad
benchmark. -/
def getCompanyMarket (code : String) : Option String :=
  let full := zfill6 code
  if strStartsWith full "8" || strStartsWith full "9" then none
  else if ["600", "601", "603", "605", "688", "689"].any (fun q => strStartsWith full q) then
    some "sh"
  else if ["000", "001", "002", "003", "300", "301"].any (fun q => strStartsWith full q) then
    some "sz"
  else some "hs300"

/-- Market-to-benchmark step of _get_index_code (source lines 114-123). -/
def marketIndex (code : String) : Option String :=
  match getCompanyMarket code with
  | none => none
  | some m =>
    if m == "sh" then some "000001"
    else if m == "sz" then some "399106"
    else some "000300"

/-- Mirrors _get_index_code (source lines 100-123): a supplied custom index
that is a key of the index mapping is returned before any market check; a
Python-falsy custom index (None or the empty string) is modelled as none. -/
def getIndexCode (code : String) (custom : Option String) : Option String :=
  match custom with
  | some c => if indexMapping.contains c then some c else marketIndex code
  | none => marketIndex code

/-- Mirrors get_data (source lines 125-264) with the external reads
abstracted: indexRows is the benchmark file already restricted to the chosen
index code (source line 154) and stockRows the stock query result.  The
embedding keeps the gates in source order: empty index data, empty stock
data, day-zero resolution, position of the resolved day in the sorted
trading-day list, range computation with clipping, date-range filtering of
both frames, the inner merge on date, and final numeric cleaning. -/
def getData (p : Params) (code : String) (custom : Option String) (e : Int)
    (indexRows : List IndexRow) (stockRows : List StockRow) : Option (List Row) :=
  match getIndexCode code custom with
  | none => none
  | some _ =>
    if indexRows.isEmpty then none
    else if stockRows.isEmpty then none
    else
      match resolveDayZero (indexRows.map fun r => r.date) e with
      | none => none
      | some closest =>
        let trading_days := (indexRows.map fun r => r.date).insertionSort (fun a b => a ≤ b)
        match trading_days.findIdx? (fun d => d == closest) with
        | none => none
        | some event_idx =>
          let start_idx := max 0 ((event_idx : Int) - p.estimation_window_length -
            p.estimation_window_gap - p.event_window_before)
          let end_idx := min (trading_days.length : Int)
            ((event_idx : Int) + p.event_window_after + 1)
          if start_idx ≥ (trading_days.length : Int) ∨ end_idx ≤ 0 then none
          else
            let start_date := trading_days.getD start_idx.toNat 0
            let end_date := trading_days.getD (end_idx - 1).toNat 0
            let indexF := indexRows.filter fun r =>
              decide (start_date ≤ r.date) && decide (r.date ≤ end_date)
            let stockF := stockRows.filter fun r =>
              decide (start_date ≤ r.date) && decide (r.date ≤ end_date)
            if indexF.isEmpty then none
            else if stockF.isEmpty then none
            else
              let merged := stockF.flatMap fun s =>
                (indexF.filter fun ir => ir.date == s.date).map fun ir =>
                  RawRow.mk s.date s.stock_return ir.index_return
              if merged.isEmpty then none
              else some (cleanMerged merged)

/-- Mirrors the per-event body of process_event_wrapper (source lines
469-557): data fetch, window extraction, regression, abnormal-return
computation and significance test, with every internal failure caught and
converted to the skip outcome, the pair of none and none.  On success the
abnormal-return rows are returned together with the significance rows that
survive the dropna of source line 549 (possibly an empty list, which the
orchestrator appends as zero rows). -/
def processEvent (p : Params) (code : String) (custom : Option String) (e : Int)
    (indexRows : List IndexRow) (stockRows : List StockRow) :
    Option (List CarRow) × Option (List SigRow) :=
  match getData p code custom e indexRows stockRows with
  | none => (none, none)
  | some merged =>
    match resolveEventIdxInFrame merged e with
    | none => (none, none)
    | some k =>
      match calculateRegressionCoefficients (extractEventData merged k p).1 with
      | Except.error _ => (none, none)
      | Except.ok c =>
        let rows := calculateCAR (extractEventData merged k p).2.1 c.1 c.2 e
          (extractEventData merged k p).2.2
        let sig := singleSampleTest rows e
        (some rows, some (if sigRowKept sig then [sig] else []))

/-- C4 counterexample.  A one-observation estimation window whose benchmark
return is zero has fewer than two valid observation pairs, yet the
regression step succeeds: add_constant sees no nonzero constant column, so
it prepends the intercept, the rank-deficient fit returns the minimum-norm
pair, namely the mean stock return and slope zero, and no error is raised,
so the unit is not skipped. -/
theorem regression_single_observation_succeeds :
    (calculateRegressionCoefficients [⟨0, 1/20, 0⟩]).toOption = some (1/20, 0) ∧
    [(⟨0, 1/20, 0⟩ : Row)].length < 2 := by
  constructor
  · norm_num [calculateRegressionCoefficients, ptpZero, allNonzero, mean, Except.toOption]
  · decide

/-- C4 amended.  The regression step fails, and the unit is then skipped
end-to-end with no output rows, exactly when the estimation window is empty
or its benchmark column is a nonzero constant (which covers a single
observation with nonzero benchmark and a constant nonzero benchmark of any
length); a constant zero benchmark column instead yields coefficients via
the pseudo-inverse and the unit proceeds. -/
theorem regression_error_iff (est : List Row) :
    ((calculateRegressionCoefficients est).isOk = false ↔
      est = [] ∨ (ptpZero (est.map fun r => r.index_return) = true ∧
        allNonzero (est.map fun r => r.index_return) = true)) ∧
    (∀ (p : Params) (code : String) (custom : Option String) (e : Int)
        (idxRows : List IndexRow) (stockRows : List StockRow)
        (merged : List Row) (k : ℕ),
      getData p code custom e idxRows stockRows = some merged →
      resolveEventIdxInFrame merged e = some k →
      (calculateRegressionCoefficients (extractEventData merged k p).1).isOk = false →
      processEvent p code custom e idxRows stockRows = (none, none)) := by
  constructor
  · unfold calculateRegressionCoefficients
    dsimp only
    split_ifs with h0 h1 h2
    · refine iff_of_true rfl (Or.inl ?_)
      simpa [List.length_eq_zero] using h0
    · refine iff_of_true rfl (Or.inr ?_)
      simpa using h1
    · refine iff_of_false (by simp [Except.isOk, Except.toBool]) ?_
      rintro (hnil | ⟨hptp, hnz⟩)
      · exact h0 (by simp [hnil])
      · exact h1 (by simp [hptp, hnz])
    · refine iff_of_false (by simp [Except.isOk, Except.toBool]) ?_
      rintro (hnil | ⟨hptp, hnz⟩)
      · exact h0 (by simp [hnil])
      · exact h2 hptp
  · intro p code custom e idxRows stockRows merged k hgd hres hreg
    simp only [processEvent, hgd, hres]
    cases hc : calculateRegressionCoefficients (extractEventData merged k p).1 with
    | error m => simp [hc]
    | ok c =>
      rw [hc] at hreg
      exact absurd hreg (by simp [Except.isOk, Except.toBool])

/-- Witness for regression_error_iff: the empty estimation window makes the
regression fail. -/
theorem regression_error_iff_witness :
    (calculateRegressionCoefficients []).isOk = false :=
  (regression_error_iff []).1.mpr (Or.inl rfl)

/-- Cumulative-abnormal-return sample selected by single_sample_test
(source line 453) out of a processing result. -/
def carSampleOf (res : Option (List CarRow)) (e : Int) : List ℚ :=
  ((res.getD []).filter fun r => r.event_date == e).map
    fun r => r.cumulative_abnormal_return

theorem sum_of_constant (c : ℚ) : ∀ (xs : List ℚ),
    (∀ y ∈ xs, y = c) → xs.sum = xs.length * c := by
  intro xs
  induction xs with
  | nil => intro _; simp
  | cons x rest ih =>
    intro hall
    simp only [List.sum_cons, List.length_cons]
    rw [hall x (by simp), ih (fun y hy => hall y (by simp [hy]))]
    push_cast
    ring

theorem mean_of_constant (xs : List ℚ) (c : ℚ) (hne : xs.length ≠ 0)
    (hall : ∀ y ∈ xs, y = c) : mean xs = c := by
  unfold mean
  rw [sum_of_constant c xs hall]
  have hq : (xs.length : ℚ) ≠ 0 := by exact_mod_cast hne
  field_simp

theorem ptpZero_all_eq (xs : List ℚ) (h : ptpZero xs = true) :
    ∀ y ∈ xs, y = xs.headD 0 := by
  match xs with
  | [] => intro y hy; simp at hy
  | x :: rest =>
    intro y hy
    simp only [List.headD_cons]
    rcases List.mem_cons.mp hy with h1 | h1
    · exact h1
    · have hall : ∀ z ∈ rest, z = x := by simpa [ptpZero] using h
      exact hall y h1

theorem singleSampleTest_degenerate (carRows : List CarRow) (e : Int)
    (hdeg : ((carRows.filter fun r => r.event_date == e).map
        (fun r => r.cumulative_abnormal_return)).length < 2 ∨
      (ptpZero ((carRows.filter fun r => r.event_date == e).map
          fun r => r.cumulative_abnormal_return) = true ∧
        mean ((carRows.filter fun r => r.event_date == e).map
          fun r => r.cumulative_abnormal_return) = 0)) :
    ttest1samp ((carRows.filter fun r => r.event_date == e).map
      fun r => r.cumulative_abnormal_return) = (RVal.nan, PVal.nan) ∧
    sigRowKept (singleSampleTest carRows e) = false := by
  set cars := (carRows.filter fun r => r.event_date == e).map
    fun r => r.cumulative_abnormal_return with hcars
  have htp : ttest1samp cars = (RVal.nan, PVal.nan) := by
    by_cases hlt : cars.length < 2
    · unfold ttest1samp sampleVar
      by_cases h0 : cars.length = 0
      · simp [h0]
      · simp [h0, hlt]
    · rcases hdeg with hlen | ⟨hptp, hmean⟩
      · exact absurd hlen hlt
      · have hne : cars.length ≠ 0 := by omega
        have hall := ptpZero_all_eq cars hptp
        have hhead : cars.headD 0 = 0 := by
          have hm := mean_of_constant cars (cars.headD 0) hne hall
          rw [hmean] at hm
          exact hm.symm
        have hall0 : ∀ y ∈ cars, y = 0 := fun y hy => (hall y hy).trans hhead
        have hv : sampleVar cars = some 0 := by
          unfold sampleVar
          rw [if_neg (by omega)]
          have hzero : (cars.map fun x => (x - mean cars) ^ 2).sum = 0 := by
            apply List.sum_eq_zero
            intro z hz
            obtain ⟨y, hy, rfl⟩ := List.mem_map.mp hz
            rw [hall0 y hy, hmean]
            ring
          rw [hzero, zero_div]
        unfold ttest1samp
        rw [if_neg hne, hv]
        simp [hmean]
  refine ⟨htp, ?_⟩
  unfold singleSampleTest sigRowKept
  simp [htp]

/-- C8 counterexample.  A degenerate cumulative-abnormal-return sample with
zero variance but nonzero mean, two identical values of one tenth, makes
the test divide a nonzero mean by a zero standard error: the statistic is
positive infinity and the p-value zero, neither is NaN, and the dropna
keeps the significance row instead of dropping it. -/
theorem zero_variance_nonzero_mean_significance_kept :
    (singleSampleTest
      [⟨0, 0, 0, 0, 0, 1/10, 7, 0⟩, ⟨1, 0, 0, 0, 0, 1/10, 7, 1⟩] 7).t_stat = RVal.posinf ∧
    (singleSampleTest
      [⟨0, 0, 0, 0, 0, 1/10, 7, 0⟩, ⟨1, 0, 0, 0, 0, 1/10, 7, 1⟩] 7).p_value = PVal.zero ∧
    sigRowKept (singleSampleTest
      [⟨0, 0, 0, 0, 0, 1/10, 7, 0⟩, ⟨1, 0, 0, 0, 0, 1/10, 7, 1⟩] 7) = true := by
  have hl : (([⟨0, 0, 0, 0, 0, 1/10, 7, 0⟩, ⟨1, 0, 0, 0, 0, 1/10, 7, 1⟩] :
      List CarRow).filter fun r => r.event_date == 7).map
        (fun r => r.cumulative_abnormal_return) = [1/10, 1/10] := rfl
  have ht : ttest1samp [1/10, 1/10] = (RVal.posinf, PVal.zero) := by
    norm_num [ttest1samp, sampleVar, mean]
  refine ⟨?_, ?_, ?_⟩
  all_goals simp only [singleSampleTest, sigRowKept, hl, ht]
  all_goals decide

/-- C8 amended.  A cumulative-abnormal-return sample that is degenerate
with fewer than two observations, or with zero variance together with zero
mean, yields NaN statistic and p-value without a fatal error, and the unit
then persists its abnormal-return rows while the significance row list is
empty; zero variance with nonzero mean instead yields an infinite statistic
with p-value zero and the significance row is kept. -/
theorem degenerate_car_sample_drops_significance_only
    (p : Params) (code : String) (custom : Option String) (e : Int)
    (idxRows : List IndexRow) (stockRows : List StockRow)
    (hsome : (processEvent p code custom e idxRows stockRows).1.isSome = true)
    (hdeg : (carSampleOf (processEvent p code custom e idxRows stockRows).1 e).length < 2 ∨
      (ptpZero (carSampleOf (processEvent p code custom e idxRows stockRows).1 e) = true ∧
        mean (carSampleOf (processEvent p code custom e idxRows stockRows).1 e) = 0)) :
    (processEvent p code custom e idxRows stockRows).2 = some [] ∧
    (processEvent p code custom e idxRows stockRows).1.isSome = true := by
  refine ⟨?_, hsome⟩
  cases hgd : getData p code custom e idxRows stockRows with
  | none =>
    simp only [processEvent, hgd] at hsome
    exact absurd hsome (by simp)
  | some merged =>
    cases hres : resolveEventIdxInFrame merged e with
    | none =>
      simp only [processEvent, hgd, hres] at hsome
      exact absurd hsome (by simp)
    | some k =>
      cases hreg : calculateRegressionCoefficients (extractEventData merged k p).1 with
      | error m =>
        simp only [processEvent, hgd, hres, hreg] at hsome
        exact absurd hsome (by simp)
      | ok c =>
        simp only [processEvent, hgd, hres, hreg, carSampleOf, Option.getD_some] at hdeg ⊢
        have hkept := (singleSampleTest_degenerate
          (calculateCAR (extractEventData merged k p).2.1 c.1 c.2 e
            (extractEventData merged k p).2.2) e hdeg).2
        rw [hkept]
        simp

/-- Witness for degenerate_car_sample_drops_significance_only: a one-day
merged series produces a single abnormal-return row, a one-element CAR
sample, a NaN t-test, an empty significance row list and a persisted
abnormal-return row list. -/
theorem degenerate_car_sample_witness :
    (processEvent ⟨3, 5, 120, 5⟩ "600001" none 0 [⟨0, some 0⟩]
      [⟨0, some (1/2)⟩]).2 = some [] ∧
    (processEvent ⟨3, 5, 120, 5⟩ "600001" none 0 [⟨0, some 0⟩]
      [⟨0, some (1/2)⟩]).1.isSome = true :=
  degenerate_car_sample_drops_significance_only ⟨3, 5, 120, 5⟩ "600001" none 0
    [⟨0, some 0⟩] [⟨0, some (1/2)⟩] (by decide) (Or.inl (by decide))

/-- C7 counterexample.  The batch entry path (source line 494) supplies the
custom index 000300, and _get_index_code returns a supplied known custom
index before performing the market check, so a company code starting with 8
is not skipped there: on a six-day series the unit produces six
abnormal-return rows. -/
theorem code89_with_custom_index_not_skipped :
    getIndexCode "800001" (some "000300") = some "000300" ∧
    ((processEvent ⟨3, 5, 120, 5⟩ "800001" (some "000300") 0
      [⟨0, some 1⟩, ⟨1, some 2⟩, ⟨2, some (-1)⟩, ⟨3, some 3⟩, ⟨4, some 1⟩, ⟨5, some 2⟩]
      [⟨0, some 2⟩, ⟨1, some 4⟩, ⟨2, some (-2)⟩, ⟨3, some 2⟩, ⟨4, some 6⟩,
        ⟨5, some 4⟩]).1.getD []).length = 6 := by
  refine ⟨by decide, by decide⟩

/-- C7 amended.  A company code whose six-digit padding starts with 8 or 9
is skipped entirely, with no abnormal-return rows, no significance row and
no escaping error, whenever no custom index is supplied or the supplied
custom index is not one of the three known indices; the batch entry path,
which supplies the known index 000300, bypasses this skip. -/
theorem code89_skipped_without_custom_index (p : Params) (code : String)
    (custom : Option String) (e : Int) (idxRows : List IndexRow)
    (stockRows : List StockRow)
    (h8 : (strStartsWith (zfill6 code) "8" || strStartsWith (zfill6 code) "9") = true)
    (hcu : match custom with
      | none => True
      | some c => indexMapping.contains c = false) :
    getIndexCode code custom = none ∧
    processEvent p code custom e idxRows stockRows = (none, none) := by
  have hmkt : getCompanyMarket code = none := by
    unfold getCompanyMarket
    simp [h8]
  have hgi : getIndexCode code custom = none := by
    unfold getIndexCode marketIndex
    cases custom with
    | none => simp [hmkt]
    | some c =>
      simp only at hcu
      have hc2 : c ∉ indexMapping := by simpa using hcu
      simp [hc2, hmkt]
  refine ⟨hgi, ?_⟩
  simp only [processEvent, getData, hgi]

/-- Witness for code89_skipped_without_custom_index: the unit with code
800001 and no custom index is skipped with no rows. -/
theorem code89_skipped_witness :
    getIndexCode "800001" none = none ∧
    processEvent ⟨3, 5, 120, 5⟩ "800001" none 0 [] [] = (none, none) :=
  code89_skipped_without_custom_index ⟨3, 5, 120, 5⟩ "800001" none 0 [] []
    (by decide) trivial

theorem cleanMerged_mem (rows : List RawRow) (r : Row) (h : r ∈ cleanMerged rows) :
    ∃ raw ∈ rows, raw.date = r.date ∧ raw.stock_return = some r.stock_return ∧
      raw.index_return = some r.index_return := by
  unfold cleanMerged at h
  obtain ⟨raw, hraw, hmk⟩ := List.mem_filterMap.mp h
  refine ⟨raw, hraw, ?_⟩
  cases hs : raw.stock_return with
  | none => rw [hs] at hmk; simp at hmk
  | some s =>
    cases hi : raw.index_return with
    | none => rw [hs, hi] at hmk; simp at hmk
    | some i =>
      rw [hs, hi] at hmk
      have := Option.some.inj hmk
      rw [← this]
      exact ⟨rfl, rfl, rfl⟩

theorem getData_some_shape (p : Params) (code : String) (custom : Option String)
    (e : Int) (idxRows : List IndexRow) (stockRows : List StockRow)
    (rows : List Row) (h : getData p code custom e idxRows stockRows = some rows) :
    ∃ sd ed, rows = cleanMerged ((stockRows.filter fun r =>
      decide (sd ≤ r.date) && decide (r.date ≤ ed)).flatMap fun s =>
        ((idxRows.filter fun r => decide (sd ≤ r.date) && decide (r.date ≤ ed)).filter
          fun ir => ir.date == s.date).map fun ir =>
            RawRow.mk s.date s.stock_return ir.index_return) := by
  unfold getData at h
  split at h
  next => exact absurd h (by simp)
  next =>
    split at h
    next => exact absurd h (by simp)
    split at h
    next => exact absurd h (by simp)
    split at h
    next => exact absurd h (by simp)
    next closest hres =>
      try dsimp only at h
      split at h
      next => exact absurd h (by simp)
      next event_idx hfind =>
        try dsimp only at h
        split at h
        next => exact absurd h (by simp)
        try dsimp only at h
        split at h
        next => exact absurd h (by simp)
        split at h
        next => exact absurd h (by simp)
        try dsimp only at h
        split at h
        next => exact absurd h (by simp)
        exact ⟨_, _, (Option.some.inj h).symm⟩

/-- C9.  Every row of a successfully fetched merged series, and hence every
row of any window sliced from it downstream, has numeric, present stock and
index returns: it originates in a stock row and an index row of the same
date whose return fields were both present. -/
theorem merged_rows_numeric (p : Params) (code : String) (custom : Option String)
    (e : Int) (idxRows : List IndexRow) (stockRows : List StockRow)
    (rows : List Row) (h : getData p code custom e idxRows stockRows = some rows)
    (a b : ℕ) (r : Row) (hr : r ∈ (rows.drop a).take b) :
    ∃ s ∈ stockRows, ∃ ir ∈ idxRows, s.date = r.date ∧ ir.date = r.date ∧
      s.stock_return = some r.stock_return ∧ ir.index_return = some r.index_return := by
  have hr2 : r ∈ rows := List.mem_of_mem_drop (List.mem_of_mem_take hr)
  obtain ⟨sd, ed, hrows⟩ := getData_some_shape p code custom e idxRows stockRows rows h
  rw [hrows] at hr2
  obtain ⟨raw, hrawmem, hdate, hs, hi⟩ := cleanMerged_mem _ r hr2
  obtain ⟨s, hsmem, hraw2⟩ := List.mem_flatMap.mp hrawmem
  obtain ⟨ir, hirmem, hmk⟩ := List.mem_map.mp hraw2
  have hsstock : s ∈ stockRows := (List.mem_filter.mp hsmem).1
  have hirfull := List.mem_filter.mp hirmem
  have hiridx : ir ∈ idxRows := (List.mem_filter.mp hirfull.1).1
  have hirdate : ir.date = s.date := by simpa using hirfull.2
  rw [← hmk] at hdate hs hi
  exact ⟨s, hsstock, ir, hiridx, hdate, by rw [hirdate]; exact hdate, hs, hi⟩

/-- Witness for merged_rows_numeric at a one-row fetch. -/
theorem merged_rows_numeric_witness :
    ∃ s ∈ [(⟨0, some 7⟩ : StockRow)], ∃ ir ∈ [(⟨0, some 5⟩ : IndexRow)],
      s.date = (0 : Int) ∧ ir.date = (0 : Int) ∧
      s.stock_return = some 7 ∧ ir.index_return = some 5 :=
  merged_rows_numeric ⟨3, 5, 120, 5⟩ "600001" none 0 [⟨0, some 5⟩] [⟨0, some 7⟩]
    [⟨0, 7, 5⟩] (by decide) 0 1 ⟨0, 7, 5⟩ (by decide)

/-- One record of the event list (source lines 584-592), reduced to its
identity key; the passthrough metadata columns are echoed verbatim and play
no role in the claims. -/
structure WorkUnit where
  company_code : String
  event_date : Int
deriving DecidableEq, Repr

/-- One persisted abnormal-return row: the company code column added by
process_event_wrapper at source line 516 together with the calculate_CAR
row. -/
structure OutRow where
  company_code : String
  row : CarRow
deriving DecidableEq, Repr

/-- One persisted significance row: the company code column added at source
line 548 together with the test row. -/
structure SigOut where
  company_code : String
  sig : SigRow
deriving DecidableEq, Repr

/-- Mirrors process_event_wrapper as invoked by the batch (source lines
469-557): hardcoded window parameters 3, 5, 120, 5 and custom index 000300
(source lines 482-494), with the company code tagged onto both result
frames.  The external data stores are abstracted as per-unit fetch
functions. -/
def processEventWrapper (idxOf : WorkUnit → List IndexRow)
    (stkOf : WorkUnit → List StockRow) (u : WorkUnit) :
    Option (List OutRow) × Option (List SigOut) :=
  let r := processEvent ⟨3, 5, 120, 5⟩ u.company_code (some "000300") u.event_date
    (idxOf u) (stkOf u)
  (r.1.map fun l => l.map fun c => ⟨u.company_code, c⟩,
    r.2.map fun l => l.map fun s => ⟨u.company_code, s⟩)

/-- Mirrors the resume scan of main (source lines 570-592): the tasks are
the events whose identity key pair is not in the set recovered from the
persisted output. -/
def pendingTasks (events : List WorkUnit) (processedKeys : List (String × Int)) :
    List WorkUnit :=
  events.filter fun u => !(processedKeys.contains (u.company_code, u.event_date))

/-- Mirrors the dispatch, collect and append loop of main (source lines
600-647): each successfully processed unit appends its abnormal-return rows
and its significance rows to the two output streams; a skipped unit, whose
outcome is the pair of none and none, appends nothing.  The source appends
in completion order of the pool; the embedding appends in task order, which
yields the same rows per unit and the same set of keys. -/
def runBatch (idxOf : WorkUnit → List IndexRow) (stkOf : WorkUnit → List StockRow)
    (events : List WorkUnit) (processedKeys : List (String × Int)) :
    List OutRow × List SigOut :=
  let tasks := pendingTasks events processedKeys
  (tasks.flatMap fun u => (processEventWrapper idxOf stkOf u).1.getD [],
    tasks.flatMap fun u => (processEventWrapper idxOf stkOf u).2.getD [])

theorem carRowsAux_event_date (al be : ℚ) (e z : Int) :
    ∀ (l : List Row) (acc : ℚ) (i : ℕ) (c : CarRow),
      c ∈ carRowsAux al be e z l acc i → c.event_date = e := by
  intro l
  induction l with
  | nil => intro acc i c hc; simp [carRowsAux] at hc
  | cons r rs ih =>
    intro acc i c hc
    rcases List.mem_cons.mp hc with h1 | h1
    · rw [h1]
    · exact ih _ _ c h1

theorem processEvent_car_event_date (p : Params) (code : String)
    (custom : Option String) (e : Int) (idxRows : List IndexRow)
    (stockRows : List StockRow) (c : CarRow)
    (hc : c ∈ (processEvent p code custom e idxRows stockRows).1.getD []) :
    c.event_date = e := by
  unfold processEvent at hc
  split at hc
  next => simp at hc
  next merged hgd =>
    split at hc
    next => simp at hc
    next k hres =>
      split at hc
      next => simp at hc
      next co hreg =>
        simp only [Option.getD_some] at hc
        exact carRowsAux_event_date co.1 co.2 e _ _ _ _ c hc

theorem processEvent_sig_event_date (p : Params) (code : String)
    (custom : Option String) (e : Int) (idxRows : List IndexRow)
    (stockRows : List StockRow) (s : SigRow)
    (hs : s ∈ (processEvent p code custom e idxRows stockRows).2.getD []) :
    s.event_date = e := by
  unfold processEvent at hs
  split at hs
  next => simp at hs
  next merged hgd =>
    split at hs
    next => simp at hs
    next k hres =>
      split at hs
      next => simp at hs
      next co hreg =>
        simp only [Option.getD_some] at hs
        split at hs
        · rcases List.mem_singleton.mp hs with h1
          rw [h1]
          rfl
        · simp at hs

/-- C6.  A work unit whose identity key already appears in the persisted
output at startup is excluded from dispatch, and a re-run appends zero
abnormal-return rows and zero significance rows carrying that key to either
output stream. -/
theorem rerun_appends_no_rows_for_processed_key
    (idxOf : WorkUnit → List IndexRow) (stkOf : WorkUnit → List StockRow)
    (events : List WorkUnit) (ks : List (String × Int)) (k : String × Int)
    (hk : k ∈ ks) :
    (∀ u ∈ pendingTasks events ks, (u.company_code, u.event_date) ≠ k) ∧
    ((runBatch idxOf stkOf events ks).1.filter
      fun r => r.company_code == k.1 && r.row.event_date == k.2) = [] ∧
    ((runBatch idxOf stkOf events ks).2.filter
      fun r => r.company_code == k.1 && r.sig.event_date == k.2) = [] := by
  have hpend : ∀ u ∈ pendingTasks events ks, (u.company_code, u.event_date) ≠ k := by
    intro u hu heq
    have hmem := (List.mem_filter.mp hu).2
    rw [heq] at hmem
    simp [hk] at hmem
  refine ⟨hpend, ?_, ?_⟩
  · rw [List.filter_eq_nil_iff]
    intro r hr
    obtain ⟨u, hu, hru⟩ := List.mem_flatMap.mp hr
    have hcc : r.company_code = u.company_code ∧ r.row.event_date = u.event_date := by
      unfold processEventWrapper at hru
      dsimp only at hru
      cases hres : (processEvent ⟨3, 5, 120, 5⟩ u.company_code (some "000300")
          u.event_date (idxOf u) (stkOf u)).1 with
      | none => rw [hres] at hru; simp at hru
      | some l =>
        rw [hres] at hru
        simp only [Option.map_some', Option.getD_some] at hru
        obtain ⟨c, hcmem, hceq⟩ := List.mem_map.mp hru
        constructor
        · rw [← hceq]
        · rw [← hceq]
          show c.event_date = u.event_date
          apply processEvent_car_event_date ⟨3, 5, 120, 5⟩ u.company_code
            (some "000300") u.event_date (idxOf u) (stkOf u) c
          rw [hres]
          simpa using hcmem
    intro hpred
    have := hpend u hu
    apply this
    have h1 := (Bool.and_eq_true _ _ ▸ hpred)
    have hc1 : r.company_code = k.1 := by
      have := h1.1
      simpa using this
    have hc2 : r.row.event_date = k.2 := by
      have := h1.2
      simpa using this
    have : (u.company_code, u.event_date) = (r.company_code, r.row.event_date) := by
      rw [hcc.1, hcc.2]
    rw [this, hc1, hc2]
  · rw [List.filter_eq_nil_iff]
    intro r hr
    obtain ⟨u, hu, hru⟩ := List.mem_flatMap.mp hr
    have hcc : r.company_code = u.company_code ∧ r.sig.event_date = u.event_date := by
      unfold processEventWrapper at hru
      dsimp only at hru
      cases hres : (processEvent ⟨3, 5, 120, 5⟩ u.company_code (some "000300")
          u.event_date (idxOf u) (stkOf u)).2 with
      | none => rw [hres] at hru; simp at hru
      | some l =>
        rw [hres] at hru
        simp only [Option.map_some', Option.getD_some] at hru
        obtain ⟨c, hcmem, hceq⟩ := List.mem_map.mp hru
        constructor
        · rw [← hceq]
        · rw [← hceq]
          show c.event_date = u.event_date
          apply processEvent_sig_event_date ⟨3, 5, 120, 5⟩ u.company_code
            (some "000300") u.event_date (idxOf u) (stkOf u) c
          rw [hres]
          simpa using hcmem
    intro hpred
    have := hpend u hu
    apply this
    have h1 := (Bool.and_eq_true _ _ ▸ hpred)
    have hc1 : r.company_code = k.1 := by
      have := h1.1
      simpa using this
    have hc2 : r.sig.event_date = k.2 := by
      have := h1.2
      simpa using this
    have : (u.company_code, u.event_date) = (r.company_code, r.sig.event_date) := by
      rw [hcc.1, hcc.2]
    rw [this, hc1, hc2]

/-- Witness for rerun_appends_no_rows_for_processed_key: a single already
processed unit is excluded and the re-run appends nothing for its key. -/
theorem rerun_appends_no_rows_witness :
    (∀ u ∈ pendingTasks [⟨"600001", 0⟩] [("600001", 0)],
      (u.company_code, u.event_date) ≠ ("600001", (0 : Int))) ∧
    ((runBatch (fun _ => []) (fun _ => []) [⟨"600001", 0⟩]
      [("600001", 0)]).1.filter
        fun r => r.company_code == "600001" && r.row.event_date == (0 : Int)) = [] ∧
    ((runBatch (fun _ => []) (fun _ => []) [⟨"600001", 0⟩]
      [("600001", 0)]).2.filter
        fun r => r.company_code == "600001" && r.sig.event_date == (0 : Int)) = [] :=
  rerun_appends_no_rows_for_processed_key (fun _ => []) (fun _ => [])
    [⟨"600001", 0⟩] [("600001", 0)] ("600001", 0) (by decide)

/-- C10.  Constructing the event-study component raises ValueError exactly
when a window parameter is invalid, that is when event_window_before or
event_window_after is negative, estimation_window_length is nonpositive or
estimation_window_gap is negative; for all other values construction
succeeds and stores the four parameters unchanged. -/
theorem init_validates_parameters (b a l g : Int) :
    ((∃ m, mkEventStudy b a l g = Except.error m) ↔
      (b < 0 ∨ a < 0 ∨ l ≤ 0 ∨ g < 0)) ∧
    (¬(b < 0 ∨ a < 0 ∨ l ≤ 0 ∨ g < 0) →
      mkEventStudy b a l g = Except.ok ⟨b, a, l, g⟩) := by
  constructor
  · constructor
    · rintro ⟨m, hm⟩
      by_contra hcon
      push_neg at hcon
      unfold mkEventStudy validateParameters at hm
      rw [if_neg (by dsimp only; omega), if_neg (by dsimp only; omega),
        if_neg (by dsimp only; omega)] at hm
      exact absurd hm (by simp)
    · intro hcond
      unfold mkEventStudy validateParameters
      dsimp only
      split_ifs with h1 h2 h3
      · exact ⟨_, rfl⟩
      · exact ⟨_, rfl⟩
      · exact ⟨_, rfl⟩
      · exfalso
        omega
  · intro hcond
    push_neg at hcond
    unfold mkEventStudy validateParameters
    rw [if_neg (by dsimp only; omega), if_neg (by dsimp only; omega),
      if_neg (by dsimp only; omega)]

/-- Witness for init_validates_parameters: the production parameters are
accepted and stored unchanged. -/
theorem init_validates_parameters_witness :
    mkEventStudy 3 5 120 5 = Except.ok ⟨3, 5, 120, 5⟩ :=
  (init_validates_parameters 3 5 120 5).2 (by decide)

end EventStudy
